import Mathlib

/-!
Shallow embedding of `certbot_regru_freebsd/dns.py` (certbot-regru plugin).

Python strings are modelled as Lean `String`, Python dicts as insertion-ordered
association lists, Python `None`-able values as `Option`, raised exceptions as
`Except` errors, and the filesystem (`os.path.exists`) as a boolean predicate
passed in as a parameter.  JSON values produced/consumed by the code are
modelled by the inductive `Json` below; `json.dumps` / `json.loads` are
modelled by the executable `dumps` / `loads`.
-/

/-- One JSON value, restricted to the constructors actually produced and
consumed by this plugin (strings, arrays, objects).  Objects are
insertion-ordered association lists, mirroring Python dicts. -/
inductive Json where
  | str : String → Json
  | arr : List Json → Json
  | obj : List (String × Json) → Json

/-- Lowercase hexadecimal digit, as produced by CPython `json.dumps` for
`\uXXXX` escapes. -/
def hexDigitLower (n : Nat) : Char :=
  if n < 10 then Char.ofNat (48 + n) else Char.ofNat (87 + n)

/-- Four lowercase hex digits of `n % 0x10000`, most significant first. -/
def hex4 (n : Nat) : List Char :=
  [hexDigitLower (n / 4096 % 16), hexDigitLower (n / 256 % 16),
   hexDigitLower (n / 16 % 16), hexDigitLower (n % 16)]

/-- CPython `json.dumps` escaping of one character with the default
`ensure_ascii=True`: `"` and `\` and the named control escapes use two-char
escapes, other printable ASCII is emitted verbatim, everything else becomes
`\uXXXX` (a surrogate pair for astral code points). -/
def escapeChar (c : Char) : List Char :=
  if c = '"' then ['\\', '"']
  else if c = '\\' then ['\\', '\\']
  else if c = '\x08' then ['\\', 'b']
  else if c = '\x0c' then ['\\', 'f']
  else if c = '\n' then ['\\', 'n']
  else if c = '\r' then ['\\', 'r']
  else if c = '\t' then ['\\', 't']
  else if 0x20 ≤ c.toNat && c.toNat ≤ 0x7e then [c]
  else if c.toNat < 0x10000 then '\\' :: 'u' :: hex4 c.toNat
  else
    ('\\' :: 'u' :: hex4 (0xd800 + (c.toNat - 0x10000) / 0x400)) ++
    ('\\' :: 'u' :: hex4 (0xdc00 + (c.toNat - 0x10000) % 0x400))

/-- `json.dumps` body of a string (no surrounding quotes). -/
def escapeString (s : String) : List Char :=
  (s.data.map escapeChar).flatten

/-- `json.dumps` of a string, quotes included. -/
def dumpStringChars (s : String) : List Char :=
  '"' :: escapeString s ++ ['"']

mutual
/-- Characters of CPython `json.dumps(value)` with the default separators
`", "` and `": "` and `ensure_ascii=True`, for the `Json` fragment. -/
def dumpJsonChars : Json → List Char
  | .str s => dumpStringChars s
  | .arr xs => '[' :: dumpElems xs ++ [']']
  | .obj ms => '\x7b' :: dumpMembers ms ++ ['\x7d']
/-- Comma-separated dump of array elements. -/
def dumpElems : List Json → List Char
  | [] => []
  | [x] => dumpJsonChars x
  | x :: xs => dumpJsonChars x ++ ',' :: ' ' :: dumpElems xs
/-- Comma-separated dump of object members (`"key": value`). -/
def dumpMembers : List (String × Json) → List Char
  | [] => []
  | [(k, v)] => dumpStringChars k ++ ':' :: ' ' :: dumpJsonChars v
  | (k, v) :: ms =>
    dumpStringChars k ++ ':' :: ' ' :: dumpJsonChars v ++ ',' :: ' ' :: dumpMembers ms
end

/-- `json.dumps` (default options), the serializer used by `_create_params`. -/
def dumps (j : Json) : String := String.mk (dumpJsonChars j)

/-- Python `s.split('.')`: splits at every dot, keeping empty pieces; the
empty string yields `[[]]` (one empty piece), never the empty list. -/
def splitDot : List Char -> List (List Char)
  | [] => [[]]
  | c :: rest =>
    match splitDot rest with
    | [] => [[c]]
    | p :: ps => if c = '.' then [] :: p :: ps else (c :: p) :: ps

/-- Python `'.'.join(pieces)`. -/
def joinDot : List (List Char) -> List Char
  | [] => []
  | [p] => p
  | p :: ps => p ++ '.' :: joinDot ps

/-- Python truthiness of an optional string (`None` and `''` are falsy). -/
def truthy : Option String → Bool
  | none => false
  | some s => !s.isEmpty

/-- Python dict read `d[k]` / `k in d`: the value stored under `k`, `none`
when absent (Python dicts have unique keys; on the association list the first
binding wins). -/
def dictGet {α : Type} (k : String) : List (String × α) → Option α
  | [] => none
  | kv :: d => if kv.1 = k then some kv.2 else dictGet k d

/-- Python dict item assignment `d[k] = v`: replaces the value in place when
the key is present (keeping its position), appends otherwise. -/
def dictSet {α : Type} (d : List (String × α)) (k : String) (v : α) :
    List (String × α) :=
  if (dictGet k d).isSome then
    d.map (fun kv => if kv.1 = k then (k, v) else kv)
  else d ++ [(k, v)]

/-- Exceptions raised by the modelled Python code. -/
inductive PyExn where
  /-- `certbot.errors.PluginError` with its message. -/
  | pluginError : String → PyExn
  /-- `IndexError` (raised by `str.format` when a replacement field has no
  argument). -/
  | indexError : String → PyExn
  /-- `AttributeError` (raised when an attribute of `None` is accessed). -/
  | attributeError : String → PyExn
deriving DecidableEq

/-- Interleaves the pieces of a format template with the arguments:
`p0 ++ a0 ++ p1 ++ a1 ++ ...` (used by `strFormat` once enough arguments are
known to exist). -/
def interleavePieces : List String → List String → String
  | [], _ => ""
  | [p], _ => p
  | p :: ps, [] => p ++ interleavePieces ps []
  | p :: ps, a :: rest => p ++ a ++ interleavePieces ps rest

/-- Splits a format template at every (non-overlapping, leftmost-first)
occurrence of an empty replacement field, i.e. an open brace directly followed
by a close brace. -/
def splitBraces : List Char → List (List Char)
  | [] => [[]]
  | '\x7b' :: '\x7d' :: rest => [] :: splitBraces rest
  | c :: rest =>
    match splitBraces rest with
    | [] => [[c]]
    | p :: ps => (c :: p) :: ps

/-- CPython `str.format` restricted to auto-numbered empty replacement fields
(the only form appearing in this source).  With fewer arguments than fields it
raises `IndexError` ("Replacement index N out of range"); surplus arguments
are ignored. -/
def strFormat (template : String) (args : List String) : Except PyExn String :=
  let pieces := (splitBraces template.data).map String.mk
  if args.length + 1 < pieces.length then
    .error (.indexError "Replacement index out of range")
  else
    .ok (interleavePieces pieces args)

/-- `Authenticator._validate_credentials`.  `credentials.conf` values come in
as `Option String` (absent keys give `None`); `fs` models `os.path.exists`;
`filename` models `credentials.confobj.filename`.  Note that both `raise`
statements format a two-field template with a single argument. -/
def validateCredentials (password username cert key : Option String)
    (fs : String → Bool) (filename : String) : Except PyExn Unit :=
  if !truthy password || !truthy username then do
    let msg ← strFormat
      "\x7b\x7d: Either password and username are required. (see \x7b\x7d)"
      [filename]
    .error (.pluginError msg)
  else if truthy cert && truthy key &&
      (!fs (cert.getD "") || !fs (key.getD "")) then do
    let msg ← strFormat
      "\x7b\x7d: Either cert and key not found. (see \x7b\x7d)" [filename]
    .error (.pluginError msg)
  else
    .ok ()

/-- Value of one hexadecimal digit character, as accepted by `json.loads`. -/
def hexVal (c : Char) : Option Nat :=
  if '0' ≤ c && c ≤ '9' then some (c.toNat - 48)
  else if 'a' ≤ c && c ≤ 'f' then some (c.toNat - 87)
  else if 'A' ≤ c && c ≤ 'F' then some (c.toNat - 55)
  else none

/-- Value of a four-hex-digit group of a `\uXXXX` escape. -/
def hex4Val (a b c d : Char) : Option Nat := do
  let x0 ← hexVal a
  let x1 ← hexVal b
  let x2 ← hexVal c
  let x3 ← hexVal d
  pure (x0 * 4096 + x1 * 256 + x2 * 16 + x3)

/-- Decoded character of a simple (single-letter) escape sequence, as accepted
by `json.loads`. -/
def escCharOf (e : Char) : Option Char :=
  if e = '"' then some '"'
  else if e = '\\' then some '\\'
  else if e = '/' then some '/'
  else if e = 'b' then some '\x08'
  else if e = 'f' then some '\x0c'
  else if e = 'n' then some '\n'
  else if e = 'r' then some '\r'
  else if e = 't' then some '\t'
  else none

/-- Reads four hex digits from the front of the input. -/
def parseHexQuad : List Char → Option (Nat × List Char)
  | a :: b :: c :: d :: r => (hex4Val a b c d).map (fun n => (n, r))
  | _ => none

/-- Reads a `\uXXXX` low-surrogate group (backslash and `u` included). -/
def parseLowSurrogate : List Char → Option (Nat × List Char)
  | e1 :: e2 :: r3 =>
    if e1 = '\\' && e2 = 'u' then
      match parseHexQuad r3 with
      | none => none
      | some (m, r4) =>
        if 0xdc00 ≤ m && m < 0xe000 then some (m, r4) else none
    else none
  | _ => none

/-- Decodes a `\u` escape (the `\u` itself already consumed): one hex quad,
or a high surrogate followed by a second `\u` low surrogate quad (recombined,
as `json.loads` does).  Lone surrogates, unrepresentable in a Lean `Char`,
yield `none`. -/
def parseUEscape (r : List Char) : Option (Char × List Char) :=
  match parseHexQuad r with
  | none => none
  | some (n, r2) =>
    if 0xd800 ≤ n && n < 0xdc00 then
      match parseLowSurrogate r2 with
      | none => none
      | some (m, r4) =>
        some (Char.ofNat (0x10000 + (n - 0xd800) * 0x400 + (m - 0xdc00)), r4)
    else if 0xdc00 ≤ n && n < 0xe000 then none
    else some (Char.ofNat n, r2)

/-- `json.loads` lexing of a string body (the opening quote already consumed),
fuelled: every step consumes at least one input character, so
`parseStringBody` below supplies enough fuel for any input.  Returns the
decoded characters and the input remaining after the closing quote.  Raw
control characters (rejected by the default strict mode) yield `none`. -/
def parseStringBodyF : Nat → List Char → Option (List Char × List Char)
  | 0, _ => none
  | fuel + 1, cs =>
    match cs with
    | [] => none
    | c :: rest =>
      if c = '"' then some ([], rest)
      else if c = '\\' then
        match rest with
        | [] => none
        | e :: r =>
          if e = 'u' then
            match parseUEscape r with
            | none => none
            | some (ch, r2) =>
              (parseStringBodyF fuel r2).map (fun p => (ch :: p.1, p.2))
          else
            match escCharOf e with
            | none => none
            | some ch =>
              (parseStringBodyF fuel r).map (fun p => (ch :: p.1, p.2))
      else if c.toNat < 0x20 then none
      else (parseStringBodyF fuel rest).map (fun p => (c :: p.1, p.2))

/-- `json.loads` string-body lexer. -/
def parseStringBody (cs : List Char) : Option (List Char × List Char) :=
  parseStringBodyF (cs.length + 1) cs

/-- Skips JSON whitespace, as `json.loads` does between tokens. -/
def skipWs : List Char → List Char
  | [] => []
  | c :: rest =>
    if c = ' ' || c = '\t' || c = '\n' || c = '\r' then skipWs rest else c :: rest

/-- `true` when the list starts with the character `c`. -/
def headIs (c : Char) : List Char → Bool
  | [] => false
  | x :: _ => x == c

mutual
/-- `json.loads` recursive-descent value parser for the `Json` fragment
(strings, arrays, objects — the only constructs this plugin ever serializes
or receives in the fields it inspects).  The `fuel` argument bounds nesting
and list length; `loads` supplies more than any input can consume. -/
def parseVal : Nat → List Char → Option (Json × List Char)
  | 0, _ => none
  | fuel + 1, cs =>
    match skipWs cs with
    | [] => none
    | c :: rest =>
      if c = '"' then
        (parseStringBody rest).map (fun p => (Json.str (String.mk p.1), p.2))
      else if c = '[' then
        let cs2 := skipWs rest
        if headIs ']' cs2 then some (.arr [], cs2.tail)
        else (parseElems fuel cs2).map (fun p => (Json.arr p.1, p.2))
      else if c = '\x7b' then
        let cs2 := skipWs rest
        if headIs '\x7d' cs2 then some (.obj [], cs2.tail)
        else (parseMembers fuel cs2).map (fun p => (Json.obj p.1, p.2))
      else none
termination_by fuel _ => (fuel, 0)
/-- Parses one or more comma-separated array elements up to the closing
bracket. -/
def parseElems : Nat → List Char → Option (List Json × List Char)
  | 0, _ => none
  | fuel + 1, cs =>
    match parseVal (fuel + 1) cs with
    | none => none
    | some (v, rest) =>
      match skipWs rest with
      | [] => none
      | c :: r =>
        if c = ',' then (parseElems fuel r).map (fun p => (v :: p.1, p.2))
        else if c = ']' then some ([v], r)
        else none
termination_by fuel _ => (fuel, 1)
/-- Parses one or more comma-separated object members up to the closing
brace. -/
def parseMembers : Nat → List Char → Option (List (String × Json) × List Char)
  | 0, _ => none
  | fuel + 1, cs =>
    match skipWs cs with
    | [] => none
    | q :: rest =>
      if q = '"' then
        match parseStringBody rest with
        | none => none
        | some (k, rest2) =>
          match skipWs rest2 with
          | [] => none
          | c2 :: rest3 =>
            if c2 = ':' then
              match parseVal (fuel + 1) rest3 with
              | none => none
              | some (v, rest4) =>
                match skipWs rest4 with
                | [] => none
                | c3 :: r =>
                  if c3 = ',' then
                    (parseMembers fuel r).map (fun p => ((String.mk k, v) :: p.1, p.2))
                  else if c3 = '\x7d' then some ([(String.mk k, v)], r)
                  else none
            else none
      else none
termination_by fuel _ => (fuel, 1)
end

/-- `json.loads` for the fragment: parses one JSON document and rejects
trailing non-whitespace input. -/
def loads (s : String) : Option Json :=
  match parseVal (s.data.length + 1) s.data with
  | some (j, rest) => if skipWs rest = [] then some j else none
  | none => none

/-- The apostrophe character (CPython quotes strings with it in `repr`). -/
def squote : Char := Char.ofNat 39

mutual
/-- Characters of CPython `str(value)` for a decoded JSON value (a `dict` /
`list` / `str` tree), as interpolated into error messages by
`'...: \x7b0\x7d'.format(response)` and the `%s` logging placeholders.
Models the common case: strings are single-quoted with backslashes and
apostrophes backslash-escaped (the finer CPython `repr` rules for control and
non-printable characters are irrelevant to every claim, which only require
the message to embed the envelope). -/
def pyReprChars : Json → List Char
  | .str s =>
    squote ::
      (s.data.map (fun c =>
        if c = '\\' then ['\\', '\\']
        else if c = squote then ['\\', squote]
        else [c])).flatten ++ [squote]
  | .arr xs => '[' :: pyReprElems xs ++ [']']
  | .obj ms => '\x7b' :: pyReprMembers ms ++ ['\x7d']
/-- `str` of list elements, comma-separated. -/
def pyReprElems : List Json → List Char
  | [] => []
  | [x] => pyReprChars x
  | x :: xs => pyReprChars x ++ ',' :: ' ' :: pyReprElems xs
/-- `str` of dict items (`'key': value`), comma-separated. -/
def pyReprMembers : List (String × Json) → List Char
  | [] => []
  | [(k, v)] => pyReprChars (.str k) ++ ':' :: ' ' :: pyReprChars v
  | (k, v) :: ms =>
    pyReprChars (.str k) ++ ':' :: ' ' :: pyReprChars v ++ ',' :: ' ' :: pyReprMembers ms
end

/-- `str(response)` for a decoded JSON object (Python dict). -/
def pyReprObj (ms : List (String × Json)) : String := String.mk (pyReprChars (.obj ms))

/-- `_RegRuClient._create_params(self, domain, input_data)`.

`domain.split('.')` keeps empty pieces and never yields an empty list,
modelled by `splitDot`; `pieces[:-2]` and `pieces[-2:]` are `take (n-2)` /
`drop (n-2)` (truncated subtraction matches Python slicing for short lists).
The five assignments mutate the caller's `input_data` dict in place; the
returned pair is `(data, input_data)`: the form-encoded POST dict `data`
(a copy of `self.options`, i.e. `input_format='json'`, updated with the
serialized `input_data`), together with the final state of the mutated
`input_data` argument. -/
def createParams (username password : String) (domain : String)
    (input_data : List (String × Json)) :
    List (String × String) × List (String × Json) :=
  let pieces := splitDot domain.data
  let d1 := dictSet input_data "subdomain"
    (.str (String.mk (joinDot (pieces.take (pieces.length - 2)))))
  let d2 := dictSet d1 "domains"
    (.arr [.obj [("dname",
      .str (String.mk (joinDot (pieces.drop (pieces.length - 2)))))]])
  let d3 := dictSet d2 "output_content_type" (.str "json")
  let d4 := dictSet d3 "username" (.str username)
  let d5 := dictSet d4 "password" (.str password)
  (dictSet ([("input_format", "json")] : List (String × String)) "input_data"
      (dumps (.obj d5)),
    d5)

/-- A `requests` HTTP response, as far as this code inspects it. -/
structure HttpResp where
  status_code : Nat
  text : String

/-- A raised `requests.exceptions.RequestException`: its `response` attribute
is `None` for failures that happen before a response exists (connection
errors, timeouts, undecodable JSON bodies) and carries the response for
`raise_for_status` failures. -/
structure RequestExc where
  response : Option HttpResp

/-- Outcome of `self.http.send(...)`: either a raised `RequestException` or
the decoded JSON envelope.  The provider envelope is a JSON object, modelled
as its member list. -/
abbrev SendOutcome := Except RequestExc (List (String × Json))

/-- Logging levels used by the client (messages elided: no claim depends on
log text, only on which level is recorded). -/
inductive LogLevel where
  | debug
  | warning
  | error
deriving DecidableEq

/-- The POST issued by `_HttpClient.send`: target URL, form-encoded fields,
and the optional client certificate/key pair passed to `requests.post`. -/
structure PostRequest where
  url : String
  formData : List (String × String)
  clientCert : Option (String × String)

/-- `_HttpClient.send(self, url, data, cert, key)`, up to the network call:
which POST is issued.  `fs` models `os.path.exists`.  The cert/key pair is
attached exactly when `cert and key and os.path.exists(cert) and
os.path.exists(key)` is truthy. -/
def httpSend (url : String) (data : List (String × String))
    (cert key : Option String) (fs : String → Bool) : PostRequest :=
  if truthy cert && truthy key && fs (cert.getD "") && fs (key.getD "") then
    { url := url, formData := data, clientCert := some (cert.getD "", key.getD "") }
  else
    { url := url, formData := data, clientCert := none }

/-- Head of the `PluginError` messages raised by `_RegRuClient`. -/
def regruApiErrorHead : String := "Error communicating with the Reg.ru API: "

/-- `_RegRuClient.add_txt_record(self, record_name, record_content)`.

Builds the POST parameters via `_create_params` with operation payload
`{'text': record_content}` and issues the POST to the `zone/add_txt`
endpoint; `outcome` is what `self.http.send` did (raise or return the decoded
envelope).  On a `RequestException` the handler evaluates
`e.response.status_code` for the error log — an `AttributeError` when
`e.response` is `None` — and otherwise raises `PluginError` with the status
code; on a returned envelope it raises `PluginError` embedding the envelope
unless `result == 'success'`.  Returns the recorded log levels on the normal
path. -/
def addTxtRecord (username password : String) (cert key : Option String)
    (fs : String → Bool) (record_name record_content : String)
    (outcome : SendOutcome) : PostRequest × Except PyExn (List LogLevel) :=
  let data := (createParams username password record_name
    [("text", Json.str record_content)]).1
  let req := httpSend "https://api.reg.ru/api/regru2/zone/add_txt" data cert key fs
  match outcome with
  | .error e =>
    match e.response with
    | none =>
      (req, .error (.attributeError
        "NoneType object has no attribute status_code"))
    | some r =>
      (req, .error (.pluginError (regruApiErrorHead ++ toString r.status_code)))
  | .ok response =>
    match dictGet "result" response with
    | some (Json.str "success") => (req, .ok [.debug, .debug])
    | _ =>
      (req, .error (.pluginError (regruApiErrorHead ++ pyReprObj response)))

/-- `_RegRuClient.del_txt_record(self, record_name, record_content)`.

Same request path against `zone/remove_record` with operation payload
`{'record_type': 'TXT', 'content': record_content}`, but failures are logged
as warnings and swallowed — except that the warning log for a
`RequestException` evaluates `e.response.status_code`, an `AttributeError`
when `e.response` is `None`. -/
def delTxtRecord (username password : String) (cert key : Option String)
    (fs : String → Bool) (record_name record_content : String)
    (outcome : SendOutcome) : PostRequest × Except PyExn (List LogLevel) :=
  let data := (createParams username password record_name
    [("record_type", Json.str "TXT"), ("content", Json.str record_content)]).1
  let req := httpSend "https://api.reg.ru/api/regru2/zone/remove_record" data cert key fs
  match outcome with
  | .error e =>
    match e.response with
    | none =>
      (req, .error (.attributeError
        "NoneType object has no attribute status_code"))
    | some _ => (req, .ok [.debug, .warning])
  | .ok response =>
    match dictGet "result" response with
    | some (Json.str "success") => (req, .ok [.debug, .debug])
    | _ => (req, .ok [.debug, .warning])

theorem dictGet_map_set {α : Type} (d : List (String × α)) (k : String) (v : α) :
    dictGet k (d.map (fun kv => if kv.1 = k then (k, v) else kv)) =
      (dictGet k d).map (fun _ => v) := by
  induction d with
  | nil => simp [dictGet]
  | cons kv d ih =>
    by_cases h : kv.1 = k
    · simp [dictGet, h]
    · simp [dictGet, h, ih]

theorem dictGet_map_set_other {α : Type} (d : List (String × α)) (k k' : String)
    (v : α) (h : k' ≠ k) :
    dictGet k' (d.map (fun kv => if kv.1 = k then (k, v) else kv)) =
      dictGet k' d := by
  induction d with
  | nil => simp [dictGet]
  | cons kv d ih =>
    by_cases hk : kv.1 = k
    · simp [dictGet, hk, Ne.symm h, ih]
    · simp [dictGet, hk, ih]

theorem dictGet_append_one {α : Type} (d : List (String × α)) (k : String)
    (v : α) : dictGet k (d ++ [(k, v)]) = (dictGet k d).getD v := by
  induction d with
  | nil => simp [dictGet]
  | cons kv d ih =>
    by_cases hk : kv.1 = k
    · simp [dictGet, hk]
    · simp [dictGet, hk, ih]

theorem dictGet_append_one_other {α : Type} (d : List (String × α))
    (k k' : String) (v : α) (h : k' ≠ k) :
    dictGet k' (d ++ [(k, v)]) = dictGet k' d := by
  induction d with
  | nil => simp [dictGet, Ne.symm h]
  | cons kv d ih =>
    by_cases hk : kv.1 = k'
    · simp [dictGet, hk]
    · simp [dictGet, hk, ih]

theorem dictSet_get_self {α : Type} (d : List (String × α)) (k : String)
    (v : α) : dictGet k (dictSet d k v) = some v := by
  unfold dictSet
  by_cases h : (dictGet k d).isSome
  · rw [if_pos h, dictGet_map_set]
    rcases hl : dictGet k d with _ | w
    · rw [hl] at h; simp at h
    · simp
  · rw [if_neg h, dictGet_append_one]
    rcases hl : dictGet k d with _ | w
    · simp
    · rw [hl] at h; simp at h

theorem dictSet_get_other {α : Type} (d : List (String × α)) (k k' : String)
    (v : α) (h : k' ≠ k) : dictGet k' (dictSet d k v) = dictGet k' d := by
  unfold dictSet
  by_cases hany : (dictGet k d).isSome
  · rw [if_pos hany, dictGet_map_set_other _ _ _ _ h]
  · rw [if_neg hany, dictGet_append_one_other _ _ _ _ h]


/-- C3: for every fully qualified name, the parameter builder sets the
`subdomain` field to all labels except the last two joined by `.` (the empty
string when the name has exactly two labels) and the single-element `domains`
list's `dname` field to the last two labels joined by `.`; in particular
`_acme-challenge.example.com` yields subdomain `_acme-challenge` and dname
`example.com`. -/
theorem C3_param_builder_splits_name :
    (∀ u p domain d0,
      dictGet "subdomain" (createParams u p domain d0).2 =
        some (.str (String.mk (joinDot
          ((splitDot domain.data).take ((splitDot domain.data).length - 2))))) ∧
      dictGet "domains" (createParams u p domain d0).2 =
        some (.arr [.obj [("dname", .str (String.mk (joinDot
          ((splitDot domain.data).drop ((splitDot domain.data).length - 2)))))]])) ∧
    (∀ u p d0,
      dictGet "subdomain" (createParams u p "_acme-challenge.example.com" d0).2 =
        some (.str "_acme-challenge") ∧
      dictGet "domains" (createParams u p "_acme-challenge.example.com" d0).2 =
        some (.arr [.obj [("dname", .str "example.com")]])) ∧
    (∀ u p domain d0, (splitDot domain.data).length = 2 →
      dictGet "subdomain" (createParams u p domain d0).2 = some (.str "")) := by
  have main : ∀ u p domain d0,
      dictGet "subdomain" (createParams u p domain d0).2 =
        some (.str (String.mk (joinDot
          ((splitDot domain.data).take ((splitDot domain.data).length - 2))))) ∧
      dictGet "domains" (createParams u p domain d0).2 =
        some (.arr [.obj [("dname", .str (String.mk (joinDot
          ((splitDot domain.data).drop ((splitDot domain.data).length - 2)))))]]) := by
    intro u p domain d0
    simp only [createParams]
    constructor
    · rw [dictSet_get_other _ _ _ _ (by decide),
        dictSet_get_other _ _ _ _ (by decide),
        dictSet_get_other _ _ _ _ (by decide),
        dictSet_get_other _ _ _ _ (by decide),
        dictSet_get_self]
    · rw [dictSet_get_other _ _ _ _ (by decide),
        dictSet_get_other _ _ _ _ (by decide),
        dictSet_get_other _ _ _ _ (by decide),
        dictSet_get_self]
  refine ⟨main, ?_, ?_⟩
  · intro u p d0
    have h := main u p "_acme-challenge.example.com" d0
    exact ⟨h.1.trans (by rfl), h.2.trans (by rfl)⟩
  · intro u p domain d0 hlen
    rw [(main u p domain d0).1, hlen]
    rfl

theorem C3_param_builder_splits_name_witness :
    dictGet "subdomain" (createParams "user" "secret" "example.com" []).2 =
      some (.str "") :=
  C3_param_builder_splits_name.2.2 "user" "secret" "example.com" [] (by rfl)

/-- C4 (counter-evidence): a credential set giving a client certificate path
but no key path — which the claim requires `validate` to reject with a
`ConfigurationError` — passes validation untouched: the guard
`cert and key and (...)` is false as soon as either path is missing, so no
error is raised at all. -/
theorem C4_cert_without_key_accepted :
    validateCredentials (some "secret") (some "user")
      (some "/usr/local/etc/letsencrypt/cert.pem") none (fun _ => true)
      "/usr/local/etc/letsencrypt/regru.ini" = .ok () := rfl

/-- C5 (counter-evidence): with an empty password, `_validate_credentials`
does fail, but with an `IndexError` escaping from
`'...'.format(credentials.confobj.filename)` (two replacement fields, one
argument) — not with a `ConfigurationError`, and with a message that does not
reference the credential source. -/
theorem C5_empty_password_raises_index_error :
    validateCredentials (some "") (some "user") none none (fun _ => false)
      "/usr/local/etc/letsencrypt/regru.ini" =
      .error (.indexError "Replacement index out of range") := rfl

/-- C10: for both actual call shapes of `_create_params`, the caller's
`input_data` dict is mutated in place into exactly its original entries
(values unchanged, in position) followed by the appended `subdomain`,
`domains`, `output_content_type`, `username` and `password` entries. -/
theorem C10_input_data_mutated_in_place :
    ∀ u p domain v,
      (createParams u p domain [("text", Json.str v)]).2 =
        [("text", Json.str v),
         ("subdomain", .str (String.mk (joinDot
           ((splitDot domain.data).take ((splitDot domain.data).length - 2))))),
         ("domains", .arr [.obj [("dname", .str (String.mk (joinDot
           ((splitDot domain.data).drop ((splitDot domain.data).length - 2)))))]]),
         ("output_content_type", .str "json"),
         ("username", .str u),
         ("password", .str p)] ∧
      (createParams u p domain
          [("record_type", Json.str "TXT"), ("content", Json.str v)]).2 =
        [("record_type", Json.str "TXT"),
         ("content", Json.str v),
         ("subdomain", .str (String.mk (joinDot
           ((splitDot domain.data).take ((splitDot domain.data).length - 2))))),
         ("domains", .arr [.obj [("dname", .str (String.mk (joinDot
           ((splitDot domain.data).drop ((splitDot domain.data).length - 2)))))]]),
         ("output_content_type", .str "json"),
         ("username", .str u),
         ("password", .str p)] :=
  fun _ _ _ _ => ⟨rfl, rfl⟩

/-- C6: for both the add and the delete call shape, the top-level form dict is
exactly `input_format='json'` plus a single `input_data` field holding the
`json.dumps`-serialized operation payload, and that payload contains the
caller's operation-specific fields merged with `username`, `password` and
`output_content_type='json'`. -/
theorem C6_form_fields_and_payload :
    ∀ u p domain content,
      ((createParams u p domain [("text", Json.str content)]).1 =
        [("input_format", "json"),
         ("input_data",
           dumps (.obj (createParams u p domain [("text", Json.str content)]).2))] ∧
       dictGet "text" (createParams u p domain [("text", Json.str content)]).2 =
         some (.str content) ∧
       dictGet "username" (createParams u p domain [("text", Json.str content)]).2 =
         some (.str u) ∧
       dictGet "password" (createParams u p domain [("text", Json.str content)]).2 =
         some (.str p) ∧
       dictGet "output_content_type"
         (createParams u p domain [("text", Json.str content)]).2 =
         some (.str "json")) ∧
      ((createParams u p domain
          [("record_type", Json.str "TXT"), ("content", Json.str content)]).1 =
        [("input_format", "json"),
         ("input_data",
           dumps (.obj (createParams u p domain
             [("record_type", Json.str "TXT"), ("content", Json.str content)]).2))] ∧
       dictGet "record_type" (createParams u p domain
           [("record_type", Json.str "TXT"), ("content", Json.str content)]).2 =
         some (.str "TXT") ∧
       dictGet "content" (createParams u p domain
           [("record_type", Json.str "TXT"), ("content", Json.str content)]).2 =
         some (.str content) ∧
       dictGet "username" (createParams u p domain
           [("record_type", Json.str "TXT"), ("content", Json.str content)]).2 =
         some (.str u) ∧
       dictGet "password" (createParams u p domain
           [("record_type", Json.str "TXT"), ("content", Json.str content)]).2 =
         some (.str p) ∧
       dictGet "output_content_type" (createParams u p domain
           [("record_type", Json.str "TXT"), ("content", Json.str content)]).2 =
         some (.str "json")) :=
  fun _ _ _ _ =>
    ⟨⟨rfl, rfl, rfl, rfl, rfl⟩, ⟨rfl, rfl, rfl, rfl, rfl, rfl⟩⟩

/-- C2 (counter-evidence): a transport failure whose `RequestException` has no
attached response (e.g. a connection error) makes `del_txt_record` raise an
`AttributeError` — `e.response.status_code` is evaluated on `None` for the
warning log — contradicting "failures are logged, but not raised". -/
theorem C2_del_connection_error_raises :
    (delTxtRecord "user" "secret" none none (fun _ => false)
      "_acme-challenge.example.com" "validation-token"
      (.error { response := none })).2 =
      .error (.attributeError "NoneType object has no attribute status_code") := rfl

/-- C7 (counter-evidence): the same responseless transport failure during
`add_txt_record` escapes as an `AttributeError` from the error-log line
instead of the documented `PluginError`. -/
theorem C7_add_connection_error_raises :
    (addTxtRecord "user2" "secret2" none none (fun _ => false)
      "_acme-challenge.example.org" "validation-token-2"
      (.error { response := none })).2 =
      .error (.attributeError "NoneType object has no attribute status_code") := rfl

/-- A string with at least one character is not `isEmpty`. -/
theorem str_cons_isEmpty_false (c : Char) (cs : List Char) :
    (String.mk (c :: cs)).isEmpty = false := by
  have h1 : 0 < String.utf8ByteSize.go (c :: cs) := by
    simp only [String.utf8ByteSize.go]
    have := Char.utf8Size_pos c
    omega
  simp only [String.isEmpty, String.endPos, String.utf8ByteSize]
  rw [beq_eq_false_iff_ne]
  intro h
  have h2 : String.utf8ByteSize.go (c :: cs) = 0 := by
    have h3 := congrArg String.Pos.byteIdx h
    simpa using h3
  omega

/-- `String.isEmpty` decides equality with the empty string. -/
theorem str_isEmpty_iff (s : String) : s.isEmpty = true ↔ s = "" := by
  cases s with
  | mk data =>
    cases data with
    | nil => simp [String.isEmpty]
    | cons c cs =>
      rw [str_cons_isEmpty_false]
      constructor
      · intro h; cases h
      · intro h; exact absurd (congrArg String.data h) (by simp)

/-- Python truthiness of `some s` holds exactly for nonempty strings. -/
theorem truthy_some_iff (s : String) : truthy (some s) = true ↔ s ≠ "" := by
  cases hb : s.isEmpty with
  | true =>
    obtain rfl : s = "" := (str_isEmpty_iff s).mp hb
    decide
  | false =>
    have hs : s ≠ "" := by rintro rfl; simp [String.isEmpty] at hb
    simp [truthy, hb, hs]

/-- C8: the POST carries the client certificate/key pair exactly when both
paths are supplied and both files exist (an empty path never exists, so
Python's truthiness test and the claim coincide); in every other case the
POST is made without client-certificate authentication, and when the pair is
attached it is the supplied `(cert, key)` pair. -/
theorem C8_client_cert_iff :
    ∀ url data cert key fs, fs "" = false →
      (((httpSend url data cert key fs).clientCert ≠ none ↔
        ∃ c k, cert = some c ∧ key = some k ∧ fs c = true ∧ fs k = true) ∧
       (∀ c k, cert = some c → key = some k → fs c = true → fs k = true →
        (httpSend url data cert key fs).clientCert = some (c, k))) := by
  intro url data cert key fs hfs
  have attach : ∀ c k, cert = some c → key = some k → fs c = true → fs k = true →
      (httpSend url data cert key fs).clientCert = some (c, k) := by
    intro c k hcert hkey hfc hfk
    subst hcert; subst hkey
    have hc : c ≠ "" := by
      rintro rfl; rw [hfs] at hfc; exact Bool.false_ne_true hfc
    have hk : k ≠ "" := by
      rintro rfl; rw [hfs] at hfk; exact Bool.false_ne_true hfk
    have hct : truthy (some c) = true := (truthy_some_iff c).mpr hc
    have hkt : truthy (some k) = true := (truthy_some_iff k).mpr hk
    simp [httpSend, hct, hkt, hfc, hfk]
  refine ⟨⟨?_, ?_⟩, attach⟩
  · intro hne
    by_cases hcond : (truthy cert && truthy key &&
        fs (cert.getD "") && fs (key.getD "")) = true
    · cases cert with
      | none => simp [truthy] at hcond
      | some c =>
        cases key with
        | none => simp [truthy] at hcond
        | some k =>
          simp only [Bool.and_eq_true] at hcond
          obtain ⟨⟨⟨-, -⟩, hfc⟩, hfk⟩ := hcond
          exact ⟨c, k, rfl, rfl, by simpa using hfc, by simpa using hfk⟩
    · exfalso
      apply hne
      simp only [httpSend]
      rw [if_neg (by simpa using hcond)]
  · rintro ⟨c, k, rfl, rfl, hfc, hfk⟩
    rw [attach c k rfl rfl hfc hfk]
    simp

theorem C8_client_cert_iff_witness :
    (httpSend "https://api.reg.ru/api/regru2/zone/add_txt"
      [("input_format", "json")] (some "/etc/le/cert.pem")
      (some "/etc/le/key.pem") (fun s => !s.isEmpty)).clientCert =
      some ("/etc/le/cert.pem", "/etc/le/key.pem") :=
  (C8_client_cert_iff "https://api.reg.ru/api/regru2/zone/add_txt"
    [("input_format", "json")] (some "/etc/le/cert.pem")
    (some "/etc/le/key.pem") (fun s => !s.isEmpty) rfl).2
    "/etc/le/cert.pem" "/etc/le/key.pem" rfl rfl rfl rfl

/-- C1: for every envelope the transport returns, `add_txt_record` returns
normally exactly when the envelope has a `result` member equal to the string
`"success"`; for every other envelope (missing member or any other value) it
raises `PluginError` whose message embeds the raw envelope. -/
theorem C1_add_success_iff :
    ∀ u p cert key fs name content env,
      ((∃ ls, (addTxtRecord u p cert key fs name content (.ok env)).2 = .ok ls) ↔
        dictGet "result" env = some (.str "success")) ∧
      (dictGet "result" env ≠ some (.str "success") →
        (addTxtRecord u p cert key fs name content (.ok env)).2 =
          .error (.pluginError (regruApiErrorHead ++ pyReprObj env))) := by
  intro u p cert key fs name content env
  rcases h : dictGet "result" env with _ | v
  · exact ⟨by simp [addTxtRecord, h], fun _ => by simp [addTxtRecord, h]⟩
  · cases v with
    | str s =>
      by_cases hs : s = "success"
      · subst hs
        exact ⟨by simp [addTxtRecord, h], fun hne => (hne rfl).elim⟩
      · constructor
        · simp only [addTxtRecord, h]
          constructor
          · rintro ⟨ls, hls⟩
            split at hls
            · rename_i heq
              exact heq
            · exact absurd hls (by simp)
          · intro heq
            injection heq with h2
            injection h2 with h3
            exact absurd h3 hs
        · intro _
          simp only [addTxtRecord, h]
    | arr xs =>
      exact ⟨by simp [addTxtRecord, h], fun _ => by simp [addTxtRecord, h]⟩
    | obj ms =>
      exact ⟨by simp [addTxtRecord, h], fun _ => by simp [addTxtRecord, h]⟩

theorem C1_add_success_iff_witness :
    (addTxtRecord "user" "secret" none none (fun _ => false)
      "_acme-challenge.example.com" "validation-token"
      (.ok [("result", Json.str "error")])).2 =
      .error (.pluginError (regruApiErrorHead ++
        pyReprObj [("result", Json.str "error")])) :=
  (C1_add_success_iff "user" "secret" none none (fun _ => false)
    "_acme-challenge.example.com" "validation-token"
    [("result", Json.str "error")]).2
    (by intro hx
        rw [show dictGet "result" [("result", Json.str "error")] =
          some (Json.str "error") from rfl] at hx
        injection hx with h2
        injection h2 with h3
        exact absurd h3 (by decide))

theorem psbF_cons_plain (f : Nat) (c : Char) (cs : List Char) (h1 : c ≠ '"')
    (h2 : c ≠ '\\') (h3 : ¬c.toNat < 0x20) :
    parseStringBodyF (f + 1) (c :: cs) =
      (parseStringBodyF f cs).map (fun p => (c :: p.1, p.2)) := by
  conv_lhs => rw [parseStringBodyF.eq_def]
  dsimp only
  rw [if_neg h1, if_neg h2, if_neg h3]

theorem hexVal_hexDigitLower : ∀ d < 16, hexVal (hexDigitLower d) = some d := by
  decide

theorem hex4Val_hex4 (n : Nat) (h : n < 65536) :
    hex4Val (hexDigitLower (n / 4096 % 16)) (hexDigitLower (n / 256 % 16))
      (hexDigitLower (n / 16 % 16)) (hexDigitLower (n % 16)) = some n := by
  rw [hex4Val]
  rw [hexVal_hexDigitLower _ (Nat.mod_lt _ (by omega)),
      hexVal_hexDigitLower _ (Nat.mod_lt _ (by omega)),
      hexVal_hexDigitLower _ (Nat.mod_lt _ (by omega)),
      hexVal_hexDigitLower _ (Nat.mod_lt _ (by omega))]
  simp only [Option.bind_eq_bind, Option.some_bind, Option.pure_def]
  congr 1
  omega

theorem char_valid_cases (c : Char) :
    c.toNat < 0xd800 ∨ (0xe000 ≤ c.toNat ∧ c.toNat < 0x110000) := c.valid

theorem parseHexQuad_hex4 (n : Nat) (h : n < 65536) (r : List Char) :
    parseHexQuad (hex4 n ++ r) = some (n, r) := by
  show parseHexQuad (hexDigitLower (n / 4096 % 16) :: hexDigitLower (n / 256 % 16) ::
    hexDigitLower (n / 16 % 16) :: hexDigitLower (n % 16) :: r) = some (n, r)
  rw [parseHexQuad, hex4Val_hex4 n h]
  rfl

theorem parseLowSurrogate_hex4 (m : Nat) (h1 : 0xdc00 ≤ m) (h2 : m < 0xe000)
    (r : List Char) :
    parseLowSurrogate ('\\' :: 'u' :: (hex4 m ++ r)) = some (m, r) := by
  rw [parseLowSurrogate]
  rw [if_pos (by decide), parseHexQuad_hex4 _ (by omega)]
  dsimp only
  rw [if_pos (by simp only [Bool.and_eq_true, decide_eq_true_eq]; omega)]

theorem parseUEscape_bmp (n : Nat) (h9 : n < 0x10000)
    (hval : n < 0xd800 ∨ 0xe000 ≤ n) (cs : List Char) :
    parseUEscape (hex4 n ++ cs) = some (Char.ofNat n, cs) := by
  rw [parseUEscape, parseHexQuad_hex4 _ h9]
  dsimp only
  rw [if_neg (by simp only [Bool.and_eq_true, decide_eq_true_eq, not_and]; omega),
      if_neg (by simp only [Bool.and_eq_true, decide_eq_true_eq, not_and]; omega)]

theorem parseUEscape_astral (v : Nat) (hlo : 0x10000 ≤ v) (hhi : v < 0x110000)
    (cs : List Char) :
    parseUEscape (hex4 (0xd800 + (v - 0x10000) / 0x400) ++
      ('\\' :: 'u' :: (hex4 (0xdc00 + (v - 0x10000) % 0x400) ++ cs))) =
      some (Char.ofNat v, cs) := by
  rw [parseUEscape, parseHexQuad_hex4 _ (by omega)]
  dsimp only
  rw [if_pos (by simp only [Bool.and_eq_true, decide_eq_true_eq]; omega)]
  rw [parseLowSurrogate_hex4 _ (by omega) (by omega)]
  dsimp only
  have harith : 0x10000 + (0xd800 + (v - 0x10000) / 0x400 - 0xd800) * 0x400 +
      (0xdc00 + (v - 0x10000) % 0x400 - 0xdc00) = v := by omega
  rw [harith]

theorem psbF_escapeChar (f : Nat) (c : Char) (cs : List Char) :
    parseStringBodyF (f + 1) (escapeChar c ++ cs) =
      (parseStringBodyF f cs).map (fun p => (c :: p.1, p.2)) := by
  by_cases h1 : c = '"'
  · subst h1
    show parseStringBodyF (f + 1) ('\\' :: '"' :: cs) = _
    rw [parseStringBodyF]
    rfl
  by_cases h2 : c = '\\'
  · subst h2
    show parseStringBodyF (f + 1) ('\\' :: '\\' :: cs) = _
    rw [parseStringBodyF]
    rfl
  by_cases h3 : c = '\x08'
  · subst h3
    show parseStringBodyF (f + 1) ('\\' :: 'b' :: cs) = _
    rw [parseStringBodyF]
    rfl
  by_cases h4 : c = '\x0c'
  · subst h4
    show parseStringBodyF (f + 1) ('\\' :: 'f' :: cs) = _
    rw [parseStringBodyF]
    rfl
  by_cases h5 : c = '\n'
  · subst h5
    show parseStringBodyF (f + 1) ('\\' :: 'n' :: cs) = _
    rw [parseStringBodyF]
    rfl
  by_cases h6 : c = '\r'
  · subst h6
    show parseStringBodyF (f + 1) ('\\' :: 'r' :: cs) = _
    rw [parseStringBodyF]
    rfl
  by_cases h7 : c = '\t'
  · subst h7
    show parseStringBodyF (f + 1) ('\\' :: 't' :: cs) = _
    rw [parseStringBodyF]
    rfl
  by_cases h8 : 0x20 ≤ c.toNat ∧ c.toNat ≤ 0x7e
  · have he : escapeChar c = [c] := by
      rw [escapeChar, if_neg h1, if_neg h2, if_neg h3, if_neg h4, if_neg h5,
        if_neg h6, if_neg h7, if_pos (by simpa using h8)]
    rw [he]
    exact psbF_cons_plain f c cs h1 h2 (by omega)
  by_cases h9 : c.toNat < 0x10000
  · have he : escapeChar c = '\\' :: 'u' :: hex4 c.toNat := by
      rw [escapeChar, if_neg h1, if_neg h2, if_neg h3, if_neg h4, if_neg h5,
        if_neg h6, if_neg h7, if_neg (by simpa using h8), if_pos h9]
    rw [he]
    show parseStringBodyF (f + 1) ('\\' :: 'u' :: (hex4 c.toNat ++ cs)) = _
    conv_lhs => rw [parseStringBodyF.eq_def]
    dsimp only
    rw [if_neg (by decide : ¬('\\' : Char) = '"'), if_pos rfl, if_pos rfl]
    have hv := char_valid_cases c
    rw [parseUEscape_bmp _ h9 (by omega)]
    dsimp only
    rw [Char.ofNat_toNat]
  · have hv := char_valid_cases c
    have he : escapeChar c =
        '\\' :: 'u' :: (hex4 (0xd800 + (c.toNat - 0x10000) / 0x400) ++
          ('\\' :: 'u' :: (hex4 (0xdc00 + (c.toNat - 0x10000) % 0x400) ++ []))) := by
      rw [escapeChar, if_neg h1, if_neg h2, if_neg h3, if_neg h4, if_neg h5,
        if_neg h6, if_neg h7, if_neg (by simpa using h8), if_neg h9]
      simp
    have he2 : escapeChar c ++ cs =
        '\\' :: 'u' :: (hex4 (0xd800 + (c.toNat - 0x10000) / 0x400) ++
          ('\\' :: 'u' :: (hex4 (0xdc00 + (c.toNat - 0x10000) % 0x400) ++ cs))) := by
      rw [he]
      simp
    rw [he2]
    conv_lhs => rw [parseStringBodyF.eq_def]
    dsimp only
    rw [if_neg (by decide : ¬('\\' : Char) = '"'), if_pos rfl, if_pos rfl]
    rw [parseUEscape_astral _ (by omega) (by omega)]
    dsimp only
    rw [Char.ofNat_toNat]

theorem psbF_escapeList : ∀ (l : List Char) (f : Nat) (cs : List Char),
    parseStringBodyF (f + l.length + 1) ((l.map escapeChar).flatten ++ '"' :: cs) =
      some (l, cs) := by
  intro l
  induction l with
  | nil =>
    intro f cs
    show parseStringBodyF (f + 0 + 1) ('"' :: cs) = some ([], cs)
    conv_lhs => rw [parseStringBodyF.eq_def]
    dsimp only
    rw [if_pos rfl]
  | cons c l ih =>
    intro f cs
    show parseStringBodyF (f + (l.length + 1) + 1)
      ((escapeChar c ++ (l.map escapeChar).flatten) ++ '"' :: cs) = some (c :: l, cs)
    rw [List.append_assoc,
      show f + (l.length + 1) + 1 = (f + l.length + 1) + 1 from by omega,
      psbF_escapeChar, ih f cs]
    rfl

theorem escapeChar_length_pos (c : Char) : 1 ≤ (escapeChar c).length := by
  rw [escapeChar]
  split_ifs <;> simp [hex4]

theorem escapeList_length_ge (l : List Char) :
    l.length ≤ ((l.map escapeChar).flatten).length := by
  induction l with
  | nil => simp
  | cons c l ih =>
    simp only [List.map_cons, List.flatten_cons, List.length_append, List.length_cons]
    have := escapeChar_length_pos c
    omega

theorem parseStringBody_escape (s : String) (cs : List Char) :
    parseStringBody (escapeString s ++ '"' :: cs) = some (s.data, cs) := by
  have hge := escapeList_length_ge s.data
  obtain ⟨f, hf⟩ : ∃ f,
      (escapeString s ++ '"' :: cs).length + 1 = f + s.data.length + 1 := by
    refine ⟨(escapeString s).length + cs.length + 1 - s.data.length, ?_⟩
    simp only [List.length_append, List.length_cons, escapeString] at *
    omega
  rw [parseStringBody, hf]
  exact psbF_escapeList s.data f cs

theorem str_mk_data (s : String) : String.mk s.data = s := by cases s; rfl

theorem dumpJsonChars_head (j : Json) :
    ∃ c t, dumpJsonChars j = c :: t ∧ (c = '"' ∨ c = '[' ∨ c = '\x7b') := by
  cases j with
  | str s => exact ⟨'"', _, rfl, Or.inl rfl⟩
  | arr xs => exact ⟨'[', _, rfl, Or.inr (Or.inl rfl)⟩
  | obj ms => exact ⟨'\x7b', _, rfl, Or.inr (Or.inr rfl)⟩

theorem dumpElems_cons (x : Json) (xs : List Json) :
    ∃ r, dumpElems (x :: xs) = dumpJsonChars x ++ r := by
  cases xs with
  | nil => exact ⟨[], by simp [dumpElems]⟩
  | cons y ys => exact ⟨',' :: ' ' :: dumpElems (y :: ys), rfl⟩

theorem skipWs_cons_not_ws (c : Char) (l : List Char)
    (h : (c = ' ' || c = '\t' || c = '\n' || c = '\r') = false) :
    skipWs (c :: l) = c :: l := by
  rw [skipWs, if_neg (by simp [h])]

theorem goodStart_not_ws (c : Char) (h : c = '"' ∨ c = '[' ∨ c = '\x7b') :
    (c = ' ' || c = '\t' || c = '\n' || c = '\r') = false := by
  rcases h with rfl | rfl | rfl <;> decide

theorem skipWs_dump (j : Json) (cs : List Char) :
    skipWs (dumpJsonChars j ++ cs) = dumpJsonChars j ++ cs := by
  obtain ⟨c, t, hd, hg⟩ := dumpJsonChars_head j
  rw [hd, List.cons_append, skipWs_cons_not_ws _ _ (goodStart_not_ws _ hg)]

theorem skipWs_dumpElems (x : Json) (xs : List Json) (cs : List Char) :
    skipWs (dumpElems (x :: xs) ++ cs) = dumpElems (x :: xs) ++ cs := by
  obtain ⟨r, hr⟩ := dumpElems_cons x xs
  rw [hr, List.append_assoc, skipWs_dump]

theorem headIs_ne (c x : Char) (l : List Char) (h : x ≠ c) :
    headIs c (x :: l) = false := by
  rw [headIs, beq_eq_false_iff_ne]
  exact h

example (f : Nat) (input : List Char) :
    parseVal (f + 1) input =
      match skipWs input with
      | [] => none
      | c :: rest =>
        if c = '"' then
          (parseStringBody rest).map (fun p => (Json.str (String.mk p.1), p.2))
        else if c = '[' then
          let cs2 := skipWs rest
          if headIs ']' cs2 then some (.arr [], cs2.tail)
          else (parseElems f cs2).map (fun p => (Json.arr p.1, p.2))
        else if c = '\x7b' then
          let cs2 := skipWs rest
          if headIs '\x7d' cs2 then some (.obj [], cs2.tail)
          else (parseMembers f cs2).map (fun p => (Json.obj p.1, p.2))
        else none := by
  rw [parseVal]

theorem skipWs_strlit (k : String) (X : List Char) :
    skipWs (dumpStringChars k ++ X) = dumpStringChars k ++ X := by
  show skipWs ('"' :: ((escapeString k ++ ['"']) ++ X)) =
    '"' :: ((escapeString k ++ ['"']) ++ X)
  exact skipWs_cons_not_ws _ _ (by decide)

theorem headIs_strlit (c : Char) (k : String) (X : List Char) (h : '"' ≠ c) :
    headIs c (dumpStringChars k ++ X) = false := by
  show headIs c ('"' :: ((escapeString k ++ ['"']) ++ X)) = false
  exact headIs_ne _ _ _ h

theorem parseVal_dump_step (f : Nat)
    (ihE : ∀ xs cs input, xs ≠ [] → (dumpElems xs).length + 1 ≤ f →
      skipWs input = dumpElems xs ++ ']' :: cs →
      parseElems f input = some (xs, cs))
    (ihM : ∀ ms cs input, ms ≠ [] → (dumpMembers ms).length + 1 ≤ f →
      skipWs input = dumpMembers ms ++ '\x7d' :: cs →
      parseMembers f input = some (ms, cs)) :
    ∀ j cs input, (dumpJsonChars j).length ≤ f + 1 →
      skipWs input = dumpJsonChars j ++ cs →
      parseVal (f + 1) input = some (j, cs) := by
  intro j cs input hlen hsw
  rw [parseVal]
  cases j with
  | str s =>
    have hsw' : skipWs input = '"' :: (escapeString s ++ '"' :: cs) := by
      rw [hsw]
      show ('"' :: (escapeString s ++ ['"'])) ++ cs = _
      simp
    rw [hsw']
    dsimp only
    rw [if_pos rfl, parseStringBody_escape, Option.map_some', str_mk_data]
  | arr xs =>
    cases xs with
    | nil =>
      have hsw' : skipWs input = '[' :: ']' :: cs := by rw [hsw]; rfl
      rw [hsw']
      dsimp only
      rw [if_neg (by decide), if_pos rfl,
        skipWs_cons_not_ws _ _ (by decide)]
      rw [if_pos (by rw [headIs]; simp)]
      rfl
    | cons x xs' =>
      obtain ⟨c0, t0, hd0, hg0⟩ := dumpJsonChars_head x
      obtain ⟨r0, hr0⟩ := dumpElems_cons x xs'
      have hsw' : skipWs input = '[' :: (dumpElems (x :: xs') ++ ']' :: cs) := by
        rw [hsw]
        show ('[' :: (dumpElems (x :: xs') ++ [']'])) ++ cs = _
        simp
      rw [hsw']
      dsimp only
      rw [if_neg (by decide), if_pos rfl, skipWs_dumpElems]
      have hhead : headIs ']' (dumpElems (x :: xs') ++ ']' :: cs) = false := by
        rw [hr0, hd0, List.cons_append, List.cons_append]
        exact headIs_ne _ _ _ (by rcases hg0 with rfl | rfl | rfl <;> decide)
      rw [if_neg (by rw [hhead]; simp)]
      have hlen' : (dumpElems (x :: xs')).length + 1 ≤ f := by
        have h2 : (dumpJsonChars (Json.arr (x :: xs'))).length =
            (dumpElems (x :: xs')).length + 2 := by
          show ('[' :: (dumpElems (x :: xs') ++ [']'])).length = _
          simp
        omega
      rw [ihE (x :: xs') cs _ (by simp) hlen' (skipWs_dumpElems x xs' (']' :: cs))]
      rfl
  | obj ms =>
    cases ms with
    | nil =>
      have hsw' : skipWs input = '\x7b' :: '\x7d' :: cs := by rw [hsw]; rfl
      rw [hsw']
      dsimp only
      rw [if_neg (by decide), if_neg (by decide), if_pos rfl,
        skipWs_cons_not_ws _ _ (by decide)]
      rw [if_pos (by rw [headIs]; simp)]
      rfl
    | cons m ms' =>
      obtain ⟨k, v⟩ := m
      have hdM : ∃ r, dumpMembers ((k, v) :: ms') = dumpStringChars k ++ r := by
        cases ms' with
        | nil => exact ⟨':' :: ' ' :: dumpJsonChars v, rfl⟩
        | cons m2 ms2 =>
          exact ⟨':' :: ' ' :: (dumpJsonChars v ++ ',' :: ' ' :: dumpMembers (m2 :: ms2)), by
            show dumpStringChars k ++ ':' :: ' ' :: dumpJsonChars v ++
              ',' :: ' ' :: dumpMembers (m2 :: ms2) = _
            simp⟩
      obtain ⟨r1, hr1⟩ := hdM
      have hsw' : skipWs input =
          '\x7b' :: (dumpMembers ((k, v) :: ms') ++ '\x7d' :: cs) := by
        rw [hsw]
        show ('\x7b' :: (dumpMembers ((k, v) :: ms') ++ ['\x7d'])) ++ cs = _
        simp
      rw [hsw']
      dsimp only
      rw [if_neg (by decide), if_neg (by decide), if_pos rfl]
      have hskip : skipWs (dumpMembers ((k, v) :: ms') ++ '\x7d' :: cs) =
          dumpMembers ((k, v) :: ms') ++ '\x7d' :: cs := by
        rw [hr1, List.append_assoc]
        exact skipWs_strlit k _
      rw [hskip]
      have hhead : headIs '\x7d' (dumpMembers ((k, v) :: ms') ++ '\x7d' :: cs) = false := by
        rw [hr1, List.append_assoc]
        exact headIs_strlit _ k _ (by decide)
      rw [if_neg (by rw [hhead]; simp)]
      have hlen' : (dumpMembers ((k, v) :: ms')).length + 1 ≤ f := by
        have h2 : (dumpJsonChars (Json.obj ((k, v) :: ms'))).length =
            (dumpMembers ((k, v) :: ms')).length + 2 := by
          show ('\x7b' :: (dumpMembers ((k, v) :: ms') ++ ['\x7d'])).length = _
          simp
        omega
      rw [ihM ((k, v) :: ms') cs _ (by simp) hlen' hskip]
      rfl

theorem skipWs_space (l : List Char) : skipWs (' ' :: l) = skipWs l := by
  rw [skipWs, if_pos (by decide)]

theorem parseElems_dump_step (f : Nat)
    (hV : ∀ j cs input, (dumpJsonChars j).length ≤ f + 1 →
      skipWs input = dumpJsonChars j ++ cs → parseVal (f + 1) input = some (j, cs))
    (ihE : ∀ xs cs input, xs ≠ [] → (dumpElems xs).length + 1 ≤ f →
      skipWs input = dumpElems xs ++ ']' :: cs →
      parseElems f input = some (xs, cs)) :
    ∀ xs cs input, xs ≠ [] → (dumpElems xs).length + 1 ≤ f + 1 →
      skipWs input = dumpElems xs ++ ']' :: cs →
      parseElems (f + 1) input = some (xs, cs) := by
  intro xs cs input hne hlen hsw
  cases xs with
  | nil => exact absurd rfl hne
  | cons x xs' =>
    rw [parseElems]
    cases xs' with
    | nil =>
      have hl : (dumpJsonChars x).length ≤ f + 1 := by
        have : (dumpElems [x]).length = (dumpJsonChars x).length := rfl
        omega
      rw [hV x (']' :: cs) input hl hsw]
      dsimp only
      rw [skipWs_cons_not_ws _ _ (by decide)]
      dsimp only
      rw [if_neg (by decide), if_pos rfl]
    | cons y ys =>
      have hsw2 : skipWs input =
          dumpJsonChars x ++ (',' :: ' ' :: (dumpElems (y :: ys) ++ ']' :: cs)) := by
        rw [hsw]
        show (dumpJsonChars x ++ ',' :: ' ' :: dumpElems (y :: ys)) ++ ']' :: cs = _
        simp
      have hlth : (dumpElems (x :: y :: ys)).length =
          (dumpJsonChars x).length + 2 + (dumpElems (y :: ys)).length := by
        show (dumpJsonChars x ++ ',' :: ' ' :: dumpElems (y :: ys)).length = _
        simp
        omega
      have hl : (dumpJsonChars x).length ≤ f + 1 := by omega
      rw [hV x (',' :: ' ' :: (dumpElems (y :: ys) ++ ']' :: cs)) input hl hsw2]
      dsimp only
      rw [skipWs_cons_not_ws _ _ (by decide)]
      dsimp only
      rw [if_pos rfl]
      have hs2 : skipWs (' ' :: (dumpElems (y :: ys) ++ ']' :: cs)) =
          dumpElems (y :: ys) ++ ']' :: cs := by
        rw [skipWs_space, skipWs_dumpElems]
      rw [ihE (y :: ys) cs _ (by simp) (by omega) hs2]
      rfl

theorem parseMembers_dump_step (f : Nat)
    (hV : ∀ j cs input, (dumpJsonChars j).length ≤ f + 1 →
      skipWs input = dumpJsonChars j ++ cs → parseVal (f + 1) input = some (j, cs))
    (ihM : ∀ ms cs input, ms ≠ [] → (dumpMembers ms).length + 1 ≤ f →
      skipWs input = dumpMembers ms ++ '\x7d' :: cs →
      parseMembers f input = some (ms, cs)) :
    ∀ ms cs input, ms ≠ [] → (dumpMembers ms).length + 1 ≤ f + 1 →
      skipWs input = dumpMembers ms ++ '\x7d' :: cs →
      parseMembers (f + 1) input = some (ms, cs) := by
  intro ms cs input hne hlen hsw
  cases ms with
  | nil => exact absurd rfl hne
  | cons m ms' =>
    obtain ⟨k, v⟩ := m
    rw [parseMembers]
    cases ms' with
    | nil =>
      have hsw2 : skipWs input = '"' :: (escapeString k ++ '"' ::
          (':' :: ' ' :: (dumpJsonChars v ++ '\x7d' :: cs))) := by
        rw [hsw]
        show (dumpStringChars k ++ ':' :: ' ' :: dumpJsonChars v) ++ '\x7d' :: cs = _
        simp [dumpStringChars]
      rw [hsw2]
      dsimp only
      rw [if_pos rfl, parseStringBody_escape]
      dsimp only
      rw [skipWs_cons_not_ws _ _ (by decide)]
      dsimp only
      rw [if_pos rfl]
      have hlv : (dumpJsonChars v).length ≤ f + 1 := by
        have : (dumpMembers [(k, v)]).length =
            (dumpStringChars k).length + 2 + (dumpJsonChars v).length := by
          show (dumpStringChars k ++ ':' :: ' ' :: dumpJsonChars v).length = _
          simp
          omega
        omega
      have hsv : skipWs (' ' :: (dumpJsonChars v ++ '\x7d' :: cs)) =
          dumpJsonChars v ++ '\x7d' :: cs := by
        rw [skipWs_space, skipWs_dump]
      rw [hV v ('\x7d' :: cs) _ hlv hsv]
      dsimp only
      rw [skipWs_cons_not_ws _ _ (by decide)]
      dsimp only
      rw [if_neg (by decide), if_pos rfl, str_mk_data]
    | cons m2 ms2 =>
      have hsw2 : skipWs input = '"' :: (escapeString k ++ '"' ::
          (':' :: ' ' :: (dumpJsonChars v ++ ',' :: ' ' ::
            (dumpMembers (m2 :: ms2) ++ '\x7d' :: cs)))) := by
        rw [hsw]
        show (dumpStringChars k ++ ':' :: ' ' :: dumpJsonChars v ++
          ',' :: ' ' :: dumpMembers (m2 :: ms2)) ++ '\x7d' :: cs = _
        simp [dumpStringChars]
      rw [hsw2]
      dsimp only
      rw [if_pos rfl, parseStringBody_escape]
      dsimp only
      rw [skipWs_cons_not_ws _ _ (by decide)]
      dsimp only
      rw [if_pos rfl]
      have hlth : (dumpMembers ((k, v) :: m2 :: ms2)).length =
          (dumpStringChars k).length + 2 + (dumpJsonChars v).length + 2 +
            (dumpMembers (m2 :: ms2)).length := by
        show (dumpStringChars k ++ ':' :: ' ' :: dumpJsonChars v ++
          ',' :: ' ' :: dumpMembers (m2 :: ms2)).length = _
        simp
        omega
      have hlv : (dumpJsonChars v).length ≤ f + 1 := by omega
      have hsv : skipWs (' ' :: (dumpJsonChars v ++ ',' :: ' ' ::
          (dumpMembers (m2 :: ms2) ++ '\x7d' :: cs))) =
          dumpJsonChars v ++ ',' :: ' ' ::
            (dumpMembers (m2 :: ms2) ++ '\x7d' :: cs) := by
        rw [skipWs_space, skipWs_dump]
      rw [hV v (',' :: ' ' :: (dumpMembers (m2 :: ms2) ++ '\x7d' :: cs)) _ hlv hsv]
      dsimp only
      rw [skipWs_cons_not_ws _ _ (by decide)]
      dsimp only
      rw [if_pos rfl]
      have hmem : ∃ c0 t0, dumpMembers (m2 :: ms2) = c0 :: t0 ∧ c0 = '"' := by
        obtain ⟨k2, v2⟩ := m2
        cases ms2 with
        | nil => exact ⟨'"', _, rfl, rfl⟩
        | cons m3 ms3 => exact ⟨'"', _, rfl, rfl⟩
      have hs2 : skipWs (' ' :: (dumpMembers (m2 :: ms2) ++ '\x7d' :: cs)) =
          dumpMembers (m2 :: ms2) ++ '\x7d' :: cs := by
        obtain ⟨c0, t0, hd0, hc0⟩ := hmem
        rw [skipWs_space, hd0, List.cons_append,
          skipWs_cons_not_ws _ _ (by subst hc0; decide)]
      rw [ihM (m2 :: ms2) cs _ (by simp) (by omega) hs2]
      rw [Option.map_some', str_mk_data]

theorem parse_dump_all : ∀ fuel : Nat,
    (∀ j cs input, (dumpJsonChars j).length ≤ fuel →
      skipWs input = dumpJsonChars j ++ cs →
      parseVal fuel input = some (j, cs)) ∧
    (∀ xs cs input, xs ≠ [] → (dumpElems xs).length + 1 ≤ fuel →
      skipWs input = dumpElems xs ++ ']' :: cs →
      parseElems fuel input = some (xs, cs)) ∧
    (∀ ms cs input, ms ≠ [] → (dumpMembers ms).length + 1 ≤ fuel →
      skipWs input = dumpMembers ms ++ '\x7d' :: cs →
      parseMembers fuel input = some (ms, cs)) := by
  intro fuel
  induction fuel using Nat.strong_induction_on with
  | _ fuel ih =>
    cases fuel with
    | zero =>
      refine ⟨?_, ?_, ?_⟩
      · intro j cs input hlen _
        obtain ⟨c, t, hd, -⟩ := dumpJsonChars_head j
        rw [hd] at hlen
        simp at hlen
      · intro xs cs input hne hlen _
        omega
      · intro ms cs input hne hlen _
        omega
    | succ f =>
      obtain ⟨-, ihE, ihM⟩ := ih f (by omega)
      have hV := parseVal_dump_step f ihE ihM
      exact ⟨hV, parseElems_dump_step f hV ihE, parseMembers_dump_step f hV ihM⟩

/-- `json.loads` is a left inverse of `json.dumps` on the `Json` fragment. -/
theorem loads_dumps (j : Json) : loads (dumps j) = some j := by
  have hlen : (dumpJsonChars j).length ≤ (dumps j).data.length + 1 := by
    show (dumpJsonChars j).length ≤ (dumpJsonChars j).length + 1
    omega
  have hsw : skipWs (dumps j).data = dumpJsonChars j ++ [] := by
    show skipWs (dumpJsonChars j) = dumpJsonChars j ++ []
    rw [List.append_nil]
    have := skipWs_dump j []
    rwa [List.append_nil] at this
  have h := (parse_dump_all ((dumps j).data.length + 1)).1 j [] (dumps j).data hlen hsw
  rw [loads, h]
  rfl

/-- C9: for both the add and the remove call shape, the form dict's
`input_data` field is the `json.dumps` serialization of the operation
payload, and parsing that string with `json.loads` reproduces the payload
exactly. -/
theorem C9_input_data_round_trip :
    ∀ u p domain content,
      (dictGet "input_data"
          (createParams u p domain [("text", Json.str content)]).1 =
        some (dumps (.obj (createParams u p domain
          [("text", Json.str content)]).2)) ∧
       loads (dumps (.obj (createParams u p domain
          [("text", Json.str content)]).2)) =
        some (.obj (createParams u p domain [("text", Json.str content)]).2)) ∧
      (dictGet "input_data" (createParams u p domain
          [("record_type", Json.str "TXT"), ("content", Json.str content)]).1 =
        some (dumps (.obj (createParams u p domain
          [("record_type", Json.str "TXT"), ("content", Json.str content)]).2)) ∧
       loads (dumps (.obj (createParams u p domain
          [("record_type", Json.str "TXT"), ("content", Json.str content)]).2)) =
        some (.obj (createParams u p domain
          [("record_type", Json.str "TXT"), ("content", Json.str content)]).2)) :=
  fun _ _ _ _ => ⟨⟨rfl, loads_dumps _⟩, ⟨rfl, loads_dumps _⟩⟩
